import Mathlib

/-!
Verification development for the request-limiter forward proxy.

The definitions below are a shallow embedding of the Rust sources:
  crates/cache/src/lib.rs      (Cache)
  crates/cache/src/storage.rs  (CacheStorage, InMemoryStorage, SimpleFileStorage)
  crates/throttle/src/lib.rs   (InMemoryThrottler::throttle)
  crates/limiter/src/lib.rs    (Server::handle_connection, handle_connect_method,
                                handle_else_methods)

Concurrent maps (DashMap) are modelled as association lists with
replace-on-insert semantics; asynchronous IO is modelled by explicit state
passing, and wall-clock / monotonic instants by natural numbers.
-/

namespace RL

/-- Association-list model of a string-keyed concurrent map (DashMap).
Lookup returns the value of the first matching pair. -/
def lookup {α : Type} : List (String × α) → String → Option α
  | [], _ => none
  | p :: rest, k => if p.1 = k then some p.2 else lookup rest k

/-- Removal of every pair with the given key (DashMap::remove). -/
def erase {α : Type} (k : String) (m : List (String × α)) : List (String × α) :=
  m.filter (fun p => !(p.1 == k))

/-- Replacing insert (DashMap::insert). -/
def insert {α : Type} (k : String) (v : α) (m : List (String × α)) :
    List (String × α) :=
  (k, v) :: erase k m

theorem lookup_erase {α : Type} (k : String) (m : List (String × α)) :
    lookup (erase k m) k = none := by
  induction m with
  | nil => rfl
  | cons p rest ih =>
    by_cases h : p.1 = k
    · simpa [erase, h] using ih
    · simpa [erase, lookup, h] using ih

theorem lookup_erase_ne {α : Type} {k k' : String} (m : List (String × α))
    (h : k' ≠ k) : lookup (erase k m) k' = lookup m k' := by
  induction m with
  | nil => rfl
  | cons p rest ih =>
    by_cases hk : p.1 = k
    · have hne : ¬ p.1 = k' := fun e => h (hk ▸ e.symm)
      have hb : (p.1 == k) = true := beq_iff_eq.mpr hk
      show lookup (List.filter (fun q => !(q.1 == k)) (p :: rest)) k' =
        lookup (p :: rest) k'
      simp only [List.filter, hb, Bool.not_true]
      show lookup (erase k rest) k' = lookup (p :: rest) k'
      rw [ih]
      simp [lookup, hne]
    · show lookup (List.filter (fun q => !(q.1 == k)) (p :: rest)) k' = _
      have hb : (p.1 == k) = false := beq_false_of_ne hk
      simp only [List.filter, hb, Bool.not_false, lookup]
      by_cases hk' : p.1 = k'
      · simp [hk']
      · simp only [hk', if_false]
        exact ih

theorem lookup_insert_self {α : Type} (k : String) (v : α)
    (m : List (String × α)) : lookup (insert k v m) k = some v := by
  simp [insert, lookup]

theorem lookup_cons_self {α : Type} (k : String) (v : α)
    (m : List (String × α)) : lookup ((k, v) :: m) k = some v := by
  simp [lookup]

/-- The storage contract of crates/cache/src/storage.rs: trait CacheStorage
with put, get, delete, over an explicit backend state of type σ.
Results model the Rust type (the Rust error payload is the unit type). -/
structure CacheStorage (σ : Type) where
  put : σ → String → List Nat → Except Unit Unit × σ
  get : σ → String → Option (List Nat)
  delete : σ → String → Except Unit Unit × σ

/-- State of InMemoryStorage: a DashMap from key to owned bytes. -/
abbrev MemState := List (String × List Nat)

/-- InMemoryStorage from storage.rs: put inserts and returns Ok, get clones
the stored bytes, delete removes and returns Ok. -/
def InMemoryStorage : CacheStorage MemState where
  put := fun st k v => (.ok (), insert k v st)
  get := fun st k => lookup st k
  delete := fun st k => (.ok (), erase k st)

/-- SimpleFileStorage from storage.rs, over a file-system modelled as a map
from absolute path to file bytes. put writes root/key (create_dir_all then a
truncating create, both succeeding in this model); get reads the whole file;
delete calls remove_file, which fails when the file is absent. -/
def SimpleFileStorage (root : String) : CacheStorage MemState where
  put := fun st k v => (.ok (), insert (root ++ "/" ++ k) v st)
  get := fun st k => lookup st (root ++ "/" ++ k)
  delete := fun st k =>
    match lookup st (root ++ "/" ++ k) with
    | none => (.error (), st)
    | some _ => (.ok (), erase (root ++ "/" ++ k) st)

/-- A storage backend whose writes fail (I/O error before any byte reaches
the backend); reads and deletes behave like the in-memory backend. Used to
analyse Cache::put when the storage layer errors. -/
def FailingStorage : CacheStorage MemState where
  put := fun st _ _ => (.error (), st)
  get := fun st k => lookup st k
  delete := fun st k => (.ok (), erase k st)

/-- The Cache of crates/cache/src/lib.rs: a nominal size, a TTL in seconds,
the DashMap key_and_evict_map from key to absolute eviction second, and the
storage backend state. -/
structure Cache (σ : Type) where
  size : Nat
  ttl_seconds : Nat
  key_and_evict_map : List (String × Nat)
  store : σ

/-- Cache::put: compute evict_time = now + ttl, insert the expiry record,
then forward the storage backend's put result. -/
def Cache.put {σ : Type} (S : CacheStorage σ) (now : Nat) (k : String)
    (v : List Nat) (c : Cache σ) : Except Unit Unit × Cache σ :=
  let evict_time := now + c.ttl_seconds
  let m := insert k evict_time c.key_and_evict_map
  let r := S.put c.store k v
  (r.1, { c with key_and_evict_map := m, store := r.2 })

/-- Cache::get: read the expiry record; absent means miss; unexpired means
return the backend's value; expired means best-effort delete on the backend,
removal of the expiry record, and miss. -/
def Cache.get {σ : Type} (S : CacheStorage σ) (now : Nat) (k : String)
    (c : Cache σ) : Option (List Nat) × Cache σ :=
  match lookup c.key_and_evict_map k with
  | some evict_time =>
    if now < evict_time then
      (S.get c.store k, c)
    else
      (none, { c with store := (S.delete c.store k).2,
                      key_and_evict_map := erase k c.key_and_evict_map })
  | none => (none, c)

/-- Cache::now_seconds truncates the wall clock to whole seconds
(SystemTime::as_secs); wall-clock time is modelled in milliseconds. -/
def now_seconds (t_millis : Nat) : Nat := t_millis / 1000

/-- Repeated reads: run Cache::get at each time in the list, threading the
cache state, and collect the results. -/
def Cache.getMany {σ : Type} (S : CacheStorage σ) (ts : List Nat) (k : String)
    (c : Cache σ) : List (Option (List Nat)) × Cache σ :=
  match ts with
  | [] => ([], c)
  | t :: rest =>
    let r := Cache.get S t k c
    let rec' := Cache.getMany S rest k r.2
    (r.1 :: rec'.1, rec'.2)

/-- Result of one call to InMemoryThrottler::throttle: the computed wait
duration, the value stored back into the key_timestamps entry, and whether
the caller slept (the code sleeps exactly when the wait is positive). -/
structure ThrottleResult where
  wait : Nat
  newEntry : Nat
  slept : Bool
deriving DecidableEq, Repr

/-- InMemoryThrottler::throttle from crates/throttle/src/lib.rs, for one key:
given the configured interval, the sampled instant now, and the current
key_timestamps entry for the key (none when absent). Present entry: start is
the later of now and the entry, the entry becomes start + interval, and the
wait is start - now. Absent entry: now + interval is inserted and the wait is
zero. Instants are naturals; duration_since saturates like Nat subtraction. -/
def throttle (interval now : Nat) (entry : Option Nat) : ThrottleResult :=
  match entry with
  | some e =>
    let start_time := max now e
    let new_start := start_time + interval
    { wait := start_time - now, newEntry := new_start,
      slept := decide (0 < start_time - now) }
  | none =>
    let new_start := now + interval
    { wait := 0, newEntry := new_start, slept := decide ((0 : Nat) < 0) }

/-- Modelled from the spec wording of section 4.3 step 2: if the entry is
absent, insert next_admit = now + interval and return 0 wait; otherwise let
start = max(now, next_admit), set next_admit = start + interval, and return
start - now as the wait; the caller sleeps exactly when the wait is
positive. Stated for comparison against the source-derived throttle. -/
def throttleSpec (interval now : Nat) (entry : Option Nat) : ThrottleResult :=
  let start := entry.elim now (fun e => max now e)
  { wait := start - now, newEntry := start + interval,
    slept := decide (0 < start - now) }

/-- Sequential trace of throttle calls on one key: for each sampled instant
in the list, run throttle against the current entry and record the admission
instant (now + wait) and the value written back to the entry. -/
def throttleRun (interval : Nat) : List Nat → Option Nat → List (Nat × Nat)
  | [], _ => []
  | now :: rest, entry =>
    let r := throttle interval now entry
    (now + r.wait, r.newEntry) :: throttleRun interval rest (some r.newEntry)

/-- The successive next_admit values written by a sequence of throttle calls
on one key. -/
def nextAdmits (interval : Nat) (nows : List Nat) (entry : Option Nat) :
    List Nat :=
  (throttleRun interval nows entry).map Prod.snd

/-- The successive admission instants (call instant plus wait) of a sequence
of throttle calls on one key. -/
def admitTimes (interval : Nat) (nows : List Nat) (entry : Option Nat) :
    List Nat :=
  (throttleRun interval nows entry).map Prod.fst

/-- ASCII whitespace test (space, tab, carriage return, line feed), the
characters relevant to HTTP request lines. -/
def isWS (c : Char) : Bool :=
  c.toNat == 32 || c.toNat == 9 || c.toNat == 13 || c.toNat == 10

/-- Trim of leading and trailing whitespace (str::trim). -/
def trimChars (l : List Char) : List Char :=
  ((l.dropWhile isWS).reverse.dropWhile isWS).reverse

/-- Accumulator-style split on whitespace runs, yielding the nonempty
tokens (str::split_whitespace). -/
def splitWSAux : List Char → List Char → List (List Char)
  | [], acc => if acc.isEmpty then [] else [acc.reverse]
  | c :: rest, acc =>
    if isWS c then
      if acc.isEmpty then splitWSAux rest []
      else acc.reverse :: splitWSAux rest []
    else splitWSAux rest (c :: acc)

/-- The whitespace-separated tokens of a string. -/
def splitWS (s : String) : List (List Char) := splitWSAux s.data []

/-- The header-block read loop shared by handle_connect_method and
handle_else_methods: lines are consumed verbatim (with their terminators)
until the first line that is empty after trimming, which is included; end of
stream simply stops the loop with no error. -/
def readHeaderLines : List String → List String
  | [] => []
  | line :: rest =>
    if (trimChars line.data).isEmpty then [line]
    else line :: readHeaderLines rest

/-- The parsed first line and header block of one incoming request. -/
structure ParsedRequest where
  method : String
  target : String
  version : String
  headerLines : List String
deriving DecidableEq, Repr

/-- The request-parsing phase of Server::handle_connection plus the header
loop of the dispatched handler, over the connection's incoming lines (each
with its terminator). An empty stream is the premature-close error; a first
line with fewer than three whitespace-separated tokens is the invalid
request line error; nothing else fails. -/
def parseRequest (stream : List String) : Except String ParsedRequest :=
  match stream with
  | [] => .error "Client closed connection prematurely"
  | firstLine :: rest =>
    let parts := splitWS (String.mk (trimChars firstLine.data))
    if parts.length < 3 then .error "Invalid HTTP request line"
    else
      .ok { method := String.mk (parts.getD 0 [])
            target := String.mk (parts.getD 1 [])
            version := String.mk (parts.getD 2 [])
            headerLines := readHeaderLines rest }

/-- Whether a parse attempt succeeded. -/
def parseOk {ε α : Type} : Except ε α → Bool
  | .ok _ => true
  | .error _ => false

/-- Truncation to a 32-bit word. -/
def w32 (n : Nat) : Nat := n % 4294967296

/-- Right rotation of a 32-bit word. -/
def rotr (n x : Nat) : Nat := w32 ((x >>> n) ||| (x <<< (32 - n)))

/-- Bitwise complement of a 32-bit word. -/
def compl32 (x : Nat) : Nat := x ^^^ 4294967295

/-- The SHA-256 choice function. -/
def sha2Ch (x y z : Nat) : Nat := (x &&& y) ^^^ (compl32 x &&& z)

/-- The SHA-256 majority function. -/
def sha2Maj (x y z : Nat) : Nat := (x &&& y) ^^^ (x &&& z) ^^^ (y &&& z)

/-- The SHA-256 big sigma functions. -/
def bigSigma0 (x : Nat) : Nat := rotr 2 x ^^^ rotr 13 x ^^^ rotr 22 x

def bigSigma1 (x : Nat) : Nat := rotr 6 x ^^^ rotr 11 x ^^^ rotr 25 x

/-- The SHA-256 small sigma functions. -/
def smallSigma0 (x : Nat) : Nat := rotr 7 x ^^^ rotr 18 x ^^^ (x >>> 3)

def smallSigma1 (x : Nat) : Nat := rotr 17 x ^^^ rotr 19 x ^^^ (x >>> 10)

/-- The SHA-256 round constants, written in decimal. -/
def sha2K : List Nat :=
  [1116352408, 1899447441, 3049323471, 3921009573, 961987163,
   1508970993, 2453635748, 2870763221, 3624381080, 310598401,
   607225278, 1426881987, 1925078388, 2162078206, 2614888103,
   3248222580, 3835390401, 4022224774, 264347078, 604807628,
   770255983, 1249150122, 1555081692, 1996064986, 2554220882,
   2821834349, 2952996808, 3210313671, 3336571891, 3584528711,
   113926993, 338241895, 666307205, 773529912, 1294757372,
   1396182291, 1695183700, 1986661051, 2177026350, 2456956037,
   2730485921, 2820302411, 3259730800, 3345764771, 3516065817,
   3600352804, 4094571909, 275423344, 430227734, 506948616,
   659060556, 883997877, 958139571, 1322822218, 1537002063,
   1747873779, 1955562222, 2024104815, 2227730452, 2361852424,
   2428436474, 2756734187, 3204031479, 3329325298]

/-- The SHA-256 initial hash value, written in decimal. -/
def sha2H0 : List Nat :=
  [1779033703, 3144134277, 1013904242, 2773480762,
   1359893119, 2600822924, 528734635, 1541459225]

/-- One step of the message-schedule extension. -/
def sha2WStep (ws : List Nat) : List Nat :=
  let n := ws.length
  ws ++ [w32 (smallSigma1 (ws.getD (n - 2) 0) + ws.getD (n - 7) 0 +
              smallSigma0 (ws.getD (n - 15) 0) + ws.getD (n - 16) 0)]

/-- Iterated message-schedule extension. -/
def sha2Extend : Nat → List Nat → List Nat
  | 0, ws => ws
  | k + 1, ws => sha2Extend k (sha2WStep ws)

/-- The eight working variables of the compression loop. -/
structure Sha2State where
  a : Nat
  b : Nat
  c : Nat
  d : Nat
  e : Nat
  f : Nat
  g : Nat
  hh : Nat

/-- One round of the SHA-256 compression loop. -/
def sha2Round (st : Sha2State) (kw : Nat × Nat) : Sha2State :=
  let t1 := w32 (st.hh + bigSigma1 st.e + sha2Ch st.e st.f st.g + kw.1 + kw.2)
  let t2 := w32 (bigSigma0 st.a + sha2Maj st.a st.b st.c)
  ⟨w32 (t1 + t2), st.a, st.b, st.c, w32 (st.d + t1), st.e, st.f, st.g⟩

/-- Fuel-indexed chunking of a list into pieces of length k. -/
def chunksAux {α : Type} : Nat → Nat → List α → List (List α)
  | 0, _, _ => []
  | _ + 1, _, [] => []
  | fuel + 1, k, l => l.take k :: chunksAux fuel k (l.drop k)

/-- Chunking of a list into pieces of length k (last piece may be short). -/
def chunks {α : Type} (k : Nat) (l : List α) : List (List α) :=
  chunksAux l.length k l

/-- A big-endian 32-bit word from four bytes. -/
def wordOfBytes : List Nat → Nat
  | [b0, b1, b2, b3] => (b0 <<< 24) + (b1 <<< 16) + (b2 <<< 8) + b3
  | _ => 0

/-- The four big-endian bytes of a 32-bit word. -/
def word32Bytes (n : Nat) : List Nat :=
  [(n >>> 24) % 256, (n >>> 16) % 256, (n >>> 8) % 256, n % 256]

/-- The eight big-endian bytes of a 64-bit length field. -/
def word64Bytes (n : Nat) : List Nat :=
  [(n >>> 56) % 256, (n >>> 48) % 256, (n >>> 40) % 256, (n >>> 32) % 256,
   (n >>> 24) % 256, (n >>> 16) % 256, (n >>> 8) % 256, n % 256]

/-- SHA-256 padding: a 0x80 byte, zero bytes up to 56 mod 64, and the
message bit length as a big-endian 64-bit field. -/
def sha2Pad (msg : List Nat) : List Nat :=
  let L := msg.length
  msg ++ [0x80] ++ List.replicate ((64 - (L + 9) % 64) % 64) 0 ++
    word64Bytes (8 * L)

/-- Compression of one 64-byte block into the running hash value. -/
def sha2Compress (hv : List Nat) (block : List Nat) : List Nat :=
  let ws := sha2Extend 48 ((chunks 4 block).map wordOfBytes)
  let st0 : Sha2State :=
    ⟨hv.getD 0 0, hv.getD 1 0, hv.getD 2 0, hv.getD 3 0,
     hv.getD 4 0, hv.getD 5 0, hv.getD 6 0, hv.getD 7 0⟩
  let st := (sha2K.zip ws).foldl sha2Round st0
  [w32 (st.a + hv.getD 0 0), w32 (st.b + hv.getD 1 0),
   w32 (st.c + hv.getD 2 0), w32 (st.d + hv.getD 3 0),
   w32 (st.e + hv.getD 4 0), w32 (st.f + hv.getD 5 0),
   w32 (st.g + hv.getD 6 0), w32 (st.hh + hv.getD 7 0)]

/-- SHA-256 of a byte sequence, as 32 bytes. -/
def sha256 (msg : List Nat) : List Nat :=
  (((chunks 64 (sha2Pad msg)).foldl sha2Compress sha2H0).map word32Bytes).flatten

/-- A lowercase hexadecimal digit. -/
def hexDigit (n : Nat) : Char :=
  if n < 10 then Char.ofNat (48 + n) else Char.ofNat (87 + n)

/-- Lowercase hexadecimal encoding of a byte sequence (hex::encode). -/
def hexEncode (bs : List Nat) : String :=
  String.mk ((bs.map (fun b => [hexDigit (b / 16), hexDigit (b % 16)])).flatten)

/-- UTF-8 encoding of one character, as bytes. -/
def utf8Char (c : Char) : List Nat :=
  let n := c.toNat
  if n < 0x80 then [n]
  else if n < 0x800 then
    [0xC0 ||| (n >>> 6), 0x80 ||| (n &&& 0x3F)]
  else if n < 0x10000 then
    [0xE0 ||| (n >>> 12), 0x80 ||| ((n >>> 6) &&& 0x3F), 0x80 ||| (n &&& 0x3F)]
  else
    [0xF0 ||| (n >>> 18), 0x80 ||| ((n >>> 12) &&& 0x3F),
     0x80 ||| ((n >>> 6) &&& 0x3F), 0x80 ||| (n &&& 0x3F)]

/-- The UTF-8 bytes of a string (str::as_bytes). -/
def strBytes (s : String) : List Nat := (s.data.map utf8Char).flatten

/-- The request fingerprint computed by both handlers: the hexadecimal
encoding of SHA-256 over the bytes of the format concatenation of the
upstream address string and the accumulated request buffer. -/
def fingerprint (addr request : String) : String :=
  hexEncode (sha256 (strBytes (addr ++ request)))

/-- ASCII lowercase of a Unicode code point (str::to_lowercase restricted to
the ASCII letters, which is all the proxy header filter inspects). -/
def lowerN (n : Nat) : Nat := if 65 ≤ n ∧ n ≤ 90 then n + 32 else n

/-- The code points of a string. -/
def codes (s : String) : List Nat := s.data.map Char.toNat

/-- The header filter test of handle_else_methods:
line.to_lowercase().starts_with("proxy-"). -/
def startsProxy (l : String) : Bool :=
  (codes "proxy-").isPrefixOf ((codes l).map lowerN)

/-- Modelled from the spec wording of section 4.5: the name of a header line
(its code points before the first colon), lowercased; a header is stripped
when that name begins with proxy-. Stated for comparison against the
source-derived startsProxy. -/
def specProxy (l : String) : Bool :=
  (codes "proxy-").isPrefixOf
    (((codes l).takeWhile (fun n => !(n == 58))).map lowerN)

/-- Concatenation of received lines into the accumulated request buffer. -/
def joinLines : List String → String
  | [] => ""
  | l :: rest => l ++ joinLines rest

/-- The observable actions of one connection handler, in program order. -/
inductive Ev where
  | lookup (key : String)
  | writeClient (bytes : List Nat)
  | flushClient
  | shutdownClient
  | throttleEv (key : String)
  | dial (addr : String)
  | writeUpstream (line : String)
  | cachePut (key : String)
deriving DecidableEq, Repr

/-- The reply sent on a CONNECT cache miss before tunnelling. -/
def connectionEstablished : String := "HTTP/1.1 200 Connection Established\r\n\r\n"

/-- Server::handle_connect_method as an event trace: accumulate the request
buffer, fingerprint it against the CONNECT target, look the key up in the
cache; on a hit write the cached bytes, flush and shut down; on a miss
throttle on the target, dial it, send the 200 reply, tee the upstream bytes
to the client, and put the teed buffer into the cache. -/
def handleConnectMethod {σ : Type} (S : CacheStorage σ) (tGet tPut : Nat)
    (host firstLine : String) (headerLines : List String)
    (upstreamBytes : List Nat) (c : Cache σ) : List Ev × Cache σ :=
  let requestBuffer := firstLine ++ joinLines headerLines
  let key := fingerprint host requestBuffer
  let r := Cache.get S tGet key c
  match r.1 with
  | some cached =>
    ([.lookup key, .writeClient cached, .flushClient, .shutdownClient], r.2)
  | none =>
    ([.lookup key, .throttleEv host, .dial host,
      .writeClient (strBytes connectionEstablished),
      .writeClient upstreamBytes, .cachePut key],
     (Cache.put S tPut key upstreamBytes r.2).2)

/-- The fields of the parsed absolute URL that handle_else_methods reads
(host_str, port_or_known_default with fallback 80, path, query). -/
structure UrlParts where
  host : String
  port : Nat
  path : String
  query : Option String
deriving DecidableEq, Repr

/-- The upstream address host-colon-port derived from the URL. -/
def targetAddr (u : UrlParts) : String := u.host ++ ":" ++ toString u.port

/-- The path-and-query part of the rewritten request line. -/
def pathAndQuery (u : UrlParts) : String :=
  match u.query with
  | some q => u.path ++ "?" ++ q
  | none => u.path

/-- The rewritten first line sent upstream on a non-CONNECT miss. -/
def newRequestLine (method : String) (u : UrlParts) (version : String) :
    String :=
  method ++ " " ++ pathAndQuery u ++ " " ++ version ++ "\r\n"

/-- Server::handle_else_methods as an event trace: derive the upstream
address, accumulate the full request, fingerprint it, look it up; on a hit
write the cached bytes, flush and shut down; on a miss throttle on the
address, dial it, write the rewritten request line, forward each header line
that does not start with proxy- after lowercasing, tee the upstream bytes to
the client, and put the teed buffer into the cache. -/
def handleElseMethods {σ : Type} (S : CacheStorage σ) (tGet tPut : Nat)
    (method : String) (u : UrlParts) (version : String) (firstLine : String)
    (headerLines : List String) (upstreamBytes : List Nat) (c : Cache σ) :
    List Ev × Cache σ :=
  let addr := targetAddr u
  let fullRequest := firstLine ++ joinLines headerLines
  let key := fingerprint addr fullRequest
  let r := Cache.get S tGet key c
  match r.1 with
  | some cached =>
    ([.lookup key, .writeClient cached, .flushClient, .shutdownClient], r.2)
  | none =>
    ([.lookup key, .throttleEv addr, .dial addr,
      .writeUpstream (newRequestLine method u version)] ++
     (headerLines.filter (fun l => !(startsProxy l))).map Ev.writeUpstream ++
     [.writeClient upstreamBytes, .cachePut key],
     (Cache.put S tPut key upstreamBytes r.2).2)

/-- The payload of an upstream write event. -/
def upPayload : Ev → Option String
  | .writeUpstream s => some s
  | _ => none

/-- Helper: a get against the failing backend reports a miss and keeps the
backend empty at the key whenever the backend holds nothing for the key. -/
theorem failing_get_none {t : Nat} {k : String} {c : Cache MemState}
    (h : lookup c.store k = none) :
    (Cache.get FailingStorage t k c).1 = none ∧
    lookup ((Cache.get FailingStorage t k c).2).store k = none := by
  unfold Cache.get
  cases hm : lookup c.key_and_evict_map k with
  | none => exact ⟨rfl, h⟩
  | some evict =>
    by_cases ht : t < evict
    · simp only [hm, ht, if_true]
      exact ⟨h, h⟩
    · simp only [hm, ht, if_false]
      constructor
      · trivial
      · exact lookup_erase k c.store

/-- Helper: repeated gets against the failing backend all report a miss
whenever the backend holds nothing for the key. -/
theorem failing_getMany_none {k : String} :
    ∀ (ts : List Nat) (c : Cache MemState), lookup c.store k = none →
      ∀ r ∈ (Cache.getMany FailingStorage ts k c).1, r = none := by
  intro ts
  induction ts with
  | nil => intro c _ r hr; simp [Cache.getMany] at hr
  | cons t rest ih =>
    intro c h r hr
    have hg := failing_get_none (t := t) (k := k) (c := c) h
    simp only [Cache.getMany, List.mem_cons] at hr
    rcases hr with hr | hr
    · exact hr ▸ hg.1
    · exact ih _ hg.2 r hr

/-- C8: when Cache::put records the expiry but the storage write fails, and
the backend holds no bytes for the key, every subsequent Cache::get of the
key (no put having succeeded in between) reports a miss rather than
returning bogus bytes. -/
theorem c8_failed_put_reports_miss :
    ∀ (c : Cache MemState) (k : String) (now : Nat) (v : List Nat)
      (ts : List Nat), lookup c.store k = none →
      (Cache.put FailingStorage now k v c).1 = Except.error () ∧
      ∀ r ∈ (Cache.getMany FailingStorage ts k
               (Cache.put FailingStorage now k v c).2).1, r = none := by
  intro c k now v ts h
  refine ⟨rfl, ?_⟩
  have hstore : lookup ((Cache.put FailingStorage now k v c).2).store k = none := h
  exact failing_getMany_none ts _ hstore

/-- C8 witness: a failing put of key k into a fresh cache, followed by gets
at seconds 0 and 1500, yields an error and two misses. -/
theorem c8_failed_put_reports_miss_witness :
    (Cache.put FailingStorage 0 "k" [118] ⟨1024, 60, [], []⟩).1 =
      Except.error () ∧
    ∀ r ∈ (Cache.getMany FailingStorage [0, 1500] "k"
             (Cache.put FailingStorage 0 "k" [118] ⟨1024, 60, [], []⟩).2).1,
      r = none :=
  c8_failed_put_reports_miss ⟨1024, 60, [], []⟩ "k" 0 [118] [0, 1500] rfl

/-- C9 counterexample: SimpleFileStorage::delete of a key whose file is
absent returns an error (remove_file reports NotFound), contradicting the
claim that it returns ok. -/
theorem c9_file_delete_absent_errors :
    ((SimpleFileStorage "root").delete [] "k").1 = Except.error () := rfl

/-- C9 amended: InMemoryStorage::delete always returns ok and removes the
key, so it is idempotent; SimpleFileStorage::delete returns ok when the file
exists and an error when it is absent. -/
theorem c9_delete_behaviour :
    (∀ (st : MemState) (k : String),
       (InMemoryStorage.delete st k).1 = Except.ok () ∧
       lookup (InMemoryStorage.delete st k).2 k = none) ∧
    (∀ (root : String) (st : MemState) (k : String),
       lookup st (root ++ "/" ++ k) = none →
       (SimpleFileStorage root).delete st k = (Except.error (), st)) ∧
    (∀ (root : String) (st : MemState) (k : String) (v : List Nat),
       lookup st (root ++ "/" ++ k) = some v →
       ((SimpleFileStorage root).delete st k).1 = Except.ok ()) := by
  refine ⟨fun st k => ⟨rfl, lookup_erase k st⟩, fun root st k h => ?_,
    fun root st k v h => ?_⟩
  · simp [SimpleFileStorage, h]
  · simp [SimpleFileStorage, h]

/-- C9 witness: deleting an absent key from the empty in-memory map returns
ok, and deleting the absent file root/k errors. -/
theorem c9_delete_behaviour_witness :
    ((InMemoryStorage.delete [] "k").1 = Except.ok () ∧
     lookup (InMemoryStorage.delete [] "k").2 "k" = none) ∧
    (SimpleFileStorage "root").delete [] "k" = (Except.error (), []) :=
  ⟨c9_delete_behaviour.1 [] "k", c9_delete_behaviour.2.1 "root" [] "k" rfl⟩

/-- C10: InMemoryStorage::put and InMemoryStorage::delete return ok on every
input (their error branch is unreachable), and Cache::put backed by the
in-memory storage never returns an error. -/
theorem c10_in_memory_never_errors :
    (∀ (st : MemState) (k : String) (v : List Nat),
       (InMemoryStorage.put st k v).1 = Except.ok ()) ∧
    (∀ (st : MemState) (k : String),
       (InMemoryStorage.delete st k).1 = Except.ok ()) ∧
    (∀ (now : Nat) (k : String) (v : List Nat) (c : Cache MemState),
       (Cache.put InMemoryStorage now k v c).1 = Except.ok ()) :=
  ⟨fun _ _ _ => rfl, fun _ _ => rfl, fun _ _ _ _ => rfl⟩

/-- C1: Cache::get returns bytes only when the expiry record exists, is in
the future, and the backend holds the bytes; an absent expiry record is a
miss that leaves the cache untouched; an expired record triggers a backend
delete, removal of the expiry record and a miss; and with ttl = 1 second, a
put of key k at t = 0 s followed by a get at t = 0.5 s returns the bytes
while a get at t = 2.0 s returns none (times in milliseconds, truncated to
seconds as the code does). -/
theorem c1_cache_get_semantics :
    (∀ (σ : Type) (S : CacheStorage σ) (now : Nat) (k : String) (c : Cache σ)
       (bs : List Nat), (Cache.get S now k c).1 = some bs →
       ∃ evict, lookup c.key_and_evict_map k = some evict ∧ now < evict ∧
         S.get c.store k = some bs) ∧
    (∀ (σ : Type) (S : CacheStorage σ) (now : Nat) (k : String) (c : Cache σ),
       lookup c.key_and_evict_map k = none → Cache.get S now k c = (none, c)) ∧
    (∀ (σ : Type) (S : CacheStorage σ) (now : Nat) (k : String) (c : Cache σ)
       (evict : Nat), lookup c.key_and_evict_map k = some evict →
       evict ≤ now →
       (Cache.get S now k c).1 = none ∧
       ((Cache.get S now k c).2).store = (S.delete c.store k).2 ∧
       lookup ((Cache.get S now k c).2).key_and_evict_map k = none) ∧
    ((Cache.get InMemoryStorage (now_seconds 500) "k"
        (Cache.put InMemoryStorage (now_seconds 0) "k" [118]
          ⟨1024, 1, [], []⟩).2).1 = some [118] ∧
     (Cache.get InMemoryStorage (now_seconds 2000) "k"
        (Cache.put InMemoryStorage (now_seconds 0) "k" [118]
          ⟨1024, 1, [], []⟩).2).1 = none) := by
  refine ⟨?_, ?_, ?_, by decide, by decide⟩
  · intro σ S now k c bs hsome
    unfold Cache.get at hsome
    cases hm : lookup c.key_and_evict_map k with
    | none => rw [hm] at hsome; exact absurd hsome (by simp)
    | some evict =>
      rw [hm] at hsome
      dsimp only at hsome
      by_cases ht : now < evict
      · rw [if_pos ht] at hsome
        exact ⟨evict, rfl, ht, hsome⟩
      · rw [if_neg ht] at hsome
        exact absurd hsome (by simp)
  · intro σ S now k c hm
    unfold Cache.get
    rw [hm]
  · intro σ S now k c evict hm hle
    unfold Cache.get
    rw [hm]
    dsimp only
    rw [if_neg (by omega : ¬ now < evict)]
    exact ⟨rfl, rfl, lookup_erase k c.key_and_evict_map⟩

/-- C1 witness: a get of a key with no expiry record, at second 0, on a
cache whose expiry map is empty, is a miss that leaves the cache unchanged. -/
theorem c1_cache_get_semantics_witness :
    Cache.get InMemoryStorage 0 "a" (⟨1024, 60, [], []⟩ : Cache MemState) =
      (none, ⟨1024, 60, [], []⟩) :=
  c1_cache_get_semantics.2.1 MemState InMemoryStorage 0 "a" ⟨1024, 60, [], []⟩
    rfl

/-- C3: throttle computes its wait, its new entry and its sleep decision
exactly as the spec states: absent entry inserts now + interval with zero
wait; present entry takes start = max(now, next_admit), stores
start + interval and waits start - now; the caller sleeps exactly when the
wait is positive. -/
theorem c3_throttle_matches_spec :
    ∀ (interval now : Nat) (entry : Option Nat),
      throttle interval now entry = throttleSpec interval now entry ∧
      (throttle interval now entry).slept =
        decide (0 < (throttle interval now entry).wait) := by
  intro interval now entry
  cases entry with
  | none => simp [throttle, throttleSpec]
  | some e => simp [throttle, throttleSpec]

/-- Helper: from a present entry e, every trace element admits no earlier
than e and writes back at least e + interval, and consecutive elements are
spaced by at least the interval in both components. -/
theorem throttleRun_chain_from (interval : Nat) (nows : List Nat) :
    ∀ e : Nat,
      List.Chain'
        (fun p q : Nat × Nat => p.1 + interval ≤ q.1 ∧ p.2 + interval ≤ q.2)
        (throttleRun interval nows (some e)) ∧
      ∀ p ∈ (throttleRun interval nows (some e)).head?,
        e ≤ p.1 ∧ e + interval ≤ p.2 := by
  induction nows with
  | nil => intro e; exact ⟨List.chain'_nil, by simp [throttleRun]⟩
  | cons now rest ih =>
    intro e
    have htr : throttleRun interval (now :: rest) (some e) =
        (max now e, max now e + interval) ::
          throttleRun interval rest (some (max now e + interval)) := by
      simp only [throttleRun, throttle]
      rw [Nat.add_sub_cancel' (Nat.le_max_left now e)]
    rw [htr]
    constructor
    · rw [List.chain'_cons']
      refine ⟨?_, (ih (max now e + interval)).1⟩
      intro b hb
      have hh := (ih (max now e + interval)).2 b hb
      exact ⟨hh.1, hh.2⟩
    · intro p hp
      simp only [List.head?_cons, Option.mem_def, Option.some_inj] at hp
      subst hp
      exact ⟨Nat.le_max_right now e,
        Nat.add_le_add_right (Nat.le_max_right now e) interval⟩

/-- Helper: from any initial entry, consecutive elements of a throttle
trace are spaced by at least the interval in both the admission instant and
the written-back next_admit value. -/
theorem throttleRun_chain (interval : Nat) (nows : List Nat)
    (entry : Option Nat) :
    List.Chain'
      (fun p q : Nat × Nat => p.1 + interval ≤ q.1 ∧ p.2 + interval ≤ q.2)
      (throttleRun interval nows entry) := by
  cases entry with
  | some e => exact (throttleRun_chain_from interval nows e).1
  | none =>
    cases nows with
    | nil => exact List.chain'_nil
    | cons now rest =>
      have htr : throttleRun interval (now :: rest) none =
          (now, now + interval) ::
            throttleRun interval rest (some (now + interval)) := by
        simp only [throttleRun, throttle]
        rw [Nat.add_zero]
      rw [htr, List.chain'_cons']
      refine ⟨?_, (throttleRun_chain_from interval rest (now + interval)).1⟩
      intro b hb
      have hh := (throttleRun_chain_from interval rest (now + interval)).2 b hb
      exact ⟨hh.1, by omega⟩

/-- C2 counterexample: with interval 1, calls sampled at instants 0 and 10
on a fresh key write back next_admit values 1 and 11, which do not form an
arithmetic progression with step 1: the claimed progression fails whenever a
call arrives after the stored next_admit. -/
theorem c2_ap_counterexample :
    nextAdmits 1 [0, 10] none = [1, 11] ∧
    ¬ List.Chain' (fun a b : Nat => b = a + 1) (nextAdmits 1 [0, 10] none) := by
  have hv : nextAdmits 1 [0, 10] none = [1, 11] := by decide
  refine ⟨hv, ?_⟩
  intro hch
  rw [hv] at hch
  exact absurd (List.chain'_cons.mp hch).1 (by decide)

/-- C2 amended: every admission writes back max(now, next_admit) + interval
(now + interval when the entry is absent), so next_admit advances by at
least the interval on every admission and by exactly the interval when the
call does not arrive after the stored next_admit; successive next_admit
values and successive admission instants are each spaced by at least the
interval. The claimed exact arithmetic progression holds only in the
contended case. -/
theorem c2_next_admit_progression :
    (∀ interval now e,
       (throttle interval now (some e)).newEntry = max now e + interval) ∧
    (∀ interval now, (throttle interval now none).newEntry = now + interval) ∧
    (∀ interval now e,
       e + interval ≤ (throttle interval now (some e)).newEntry) ∧
    (∀ interval now e, now ≤ e →
       (throttle interval now (some e)).newEntry = e + interval) ∧
    (∀ interval nows entry,
       List.Chain' (fun a b => a + interval ≤ b)
         (nextAdmits interval nows entry)) ∧
    (∀ interval nows entry,
       List.Chain' (fun a b => a + interval ≤ b)
         (admitTimes interval nows entry)) := by
  refine ⟨fun _ _ _ => rfl, fun _ _ => rfl, ?_, ?_, ?_, ?_⟩
  · intro interval now e
    exact Nat.add_le_add_right (Nat.le_max_right now e) interval
  · intro interval now e h
    show max now e + interval = e + interval
    rw [Nat.max_eq_right h]
  · intro interval nows entry
    exact (List.chain'_map Prod.snd).mpr
      ((throttleRun_chain interval nows entry).imp fun _ _ h => h.2)
  · intro interval nows entry
    exact (List.chain'_map Prod.fst).mpr
      ((throttleRun_chain interval nows entry).imp fun _ _ h => h.1)

/-- C2 witness: with interval 5 and an entry holding 10, a call sampled at
instant 3 writes back exactly 10 + 5. -/
theorem c2_next_admit_progression_witness :
    (throttle 5 3 (some 10)).newEntry = 10 + 5 :=
  c2_next_admit_progression.2.2.2.1 5 3 10 (by decide)

/-- C5 counterexample: a request whose byte stream ends before any empty
line terminating the header block is seen parses successfully, contradicting
the claim that such a stream fails with an error; the header block is simply
what was read before end of stream. -/
theorem c5_eof_before_empty_line_parses :
    parseOk (parseRequest ["GET http://h/ HTTP/1.1\r\n", "Host: h\r\n"]) =
      true ∧
    parseRequest ["GET http://h/ HTTP/1.1\r\n", "Host: h\r\n"] =
      Except.ok ⟨"GET", "http://h/", "HTTP/1.1", ["Host: h\r\n"]⟩ := by
  constructor
  · rfl
  · rfl

/-- C5 amended: parsing fails exactly when the first line is absent or has
fewer than three whitespace-separated tokens; at least three tokens are
required and extra tokens are ignored, and a stream that ends before an
empty line is seen still parses, its header block being the lines read up to
end of stream. -/
theorem c5_parse_failure_conditions :
    (parseOk (parseRequest []) = false) ∧
    (∀ (first : String) (rest : List String),
       parseOk (parseRequest (first :: rest)) = false ↔
         (splitWS (String.mk (trimChars first.data))).length < 3) := by
  refine ⟨rfl, ?_⟩
  intro first rest
  by_cases h : (splitWS (String.mk (trimChars first.data))).length < 3
  · simp [parseRequest, parseOk, h]
  · simp [parseRequest, parseOk, h]

/-- Helper: the UTF-8 bytes of a concatenation are the concatenation of the
UTF-8 bytes. -/
theorem strBytes_append (a b : String) :
    strBytes (a ++ b) = strBytes a ++ strBytes b := by
  show ((a.data ++ b.data).map utf8Char).flatten = _
  simp [strBytes]

/-- C7: the fingerprint is the hexadecimal encoding of SHA-256 over the
concatenation of the upstream address bytes and the verbatim request bytes,
and it is deterministic: byte-identical requests against the same upstream
address yield identical fingerprints. -/
theorem c7_fingerprint_composition :
    (∀ addr request : String,
       fingerprint addr request =
         hexEncode (sha256 (strBytes addr ++ strBytes request))) ∧
    (∀ a₁ a₂ r₁ r₂ : String, a₁ = a₂ → r₁ = r₂ →
       fingerprint a₁ r₁ = fingerprint a₂ r₂) := by
  constructor
  · intro addr request
    unfold fingerprint
    rw [strBytes_append]
  · intro a₁ a₂ r₁ r₂ ha hr
    rw [ha, hr]

/-- C7 witness: two byte-identical CONNECT requests against the same
upstream address have the same fingerprint. -/
theorem c7_fingerprint_composition_witness :
    fingerprint "example.com:443" "CONNECT example.com:443 HTTP/1.1\r\n\r\n" =
      fingerprint "example.com:443" "CONNECT example.com:443 HTTP/1.1\r\n\r\n" :=
  c7_fingerprint_composition.2 "example.com:443" "example.com:443"
    "CONNECT example.com:443 HTTP/1.1\r\n\r\n"
    "CONNECT example.com:443 HTTP/1.1\r\n\r\n" rfl rfl

/-- Helper: ASCII lowercasing maps a code point to the colon exactly when
it already is the colon. -/
theorem lowerN_eq_58 (n : Nat) : lowerN n = 58 ↔ n = 58 := by
  unfold lowerN
  split <;> omega

/-- Helper: lowercasing commutes with truncation at the first colon. -/
theorem takeWhile_lowerN (L : List Nat) :
    (L.map lowerN).takeWhile (fun n => !(n == 58)) =
      (L.takeWhile (fun n => !(n == 58))).map lowerN := by
  induction L with
  | nil => rfl
  | cons a L ih =>
    by_cases h : a = 58
    · subst h
      simp [List.takeWhile_cons, lowerN]
    · have h1 : (a == 58) = false := beq_false_of_ne h
      have h2 : (lowerN a == 58) = false :=
        beq_false_of_ne (fun e => h ((lowerN_eq_58 a).mp e))
      simp [List.takeWhile_cons, h1, h2, ih]

/-- Helper: a prefix test is unaffected by truncating the list at the first
element the candidate never contains. -/
theorem isPrefixOf_takeWhile (q : Nat → Bool) :
    ∀ p m : List Nat, (∀ c ∈ p, q c = true) →
      p.isPrefixOf (m.takeWhile q) = p.isPrefixOf m := by
  intro p
  induction p with
  | nil => intro m _; simp
  | cons c p ih =>
    intro m hq
    cases m with
    | nil => rfl
    | cons d m =>
      by_cases hd : q d = true
      · have ht : (d :: m).takeWhile q = d :: m.takeWhile q := by
          simp [List.takeWhile_cons, hd]
        rw [ht]
        show (c == d && p.isPrefixOf (m.takeWhile q)) =
          (c == d && p.isPrefixOf m)
        rw [ih m (fun x hx => hq x (List.mem_cons_of_mem c hx))]
      · have hdf : q d = false := Bool.eq_false_iff.mpr hd
        have ht : (d :: m).takeWhile q = [] := by
          simp [List.takeWhile_cons, hdf]
        rw [ht]
        have hcd : (c == d) = false := by
          by_cases hc : c = d
          · exfalso
            apply hd
            rw [← hc]
            exact hq c (List.mem_cons_self c p)
          · exact beq_false_of_ne hc
        show false = (c == d && p.isPrefixOf m)
        rw [hcd]
        rfl

/-- Helper: the header filter compiled from the source, which lowercases the
whole line before testing for the proxy- lead, agrees with the spec filter
that lowercases only the header name (the part before the first colon). -/
theorem startsProxy_eq_specProxy (l : String) : startsProxy l = specProxy l := by
  unfold startsProxy specProxy
  rw [← takeWhile_lowerN]
  rw [isPrefixOf_takeWhile _ _ _ (by decide)]

/-- Helper: projecting the upstream-write payloads out of a block of
forwarded header lines recovers the lines. -/
theorem filterMap_upPayload_map (hs : List String) :
    List.filterMap upPayload (hs.map Ev.writeUpstream) = hs := by
  induction hs with
  | nil => rfl
  | cons h hs ih => simp [upPayload, ih]

/-- Helper: the composed payload projection over forwarded header lines is
the identity. -/
theorem filterMap_upPayload_comp (hs : List String) :
    List.filterMap (upPayload ∘ Ev.writeUpstream) hs = hs := by
  induction hs with
  | nil => rfl
  | cons h hs ih => simp [upPayload, ih, Function.comp]

/-- C4: on both paths the cache lookup is the first action of the handler;
a request whose fingerprint hits the cache produces exactly the
write-flush-shutdown reply trace with no throttle and no upstream dial; and
a throttle action ever occurring in a trace implies the lookup missed. -/
theorem c4_cache_hit_bypasses_throttle :
    (∀ (σ : Type) (S : CacheStorage σ) (tGet tPut : Nat)
       (host firstLine : String) (headerLines : List String) (up : List Nat)
       (c : Cache σ) (cached : List Nat),
       (Cache.get S tGet (fingerprint host (firstLine ++ joinLines headerLines))
          c).1 = some cached →
       (handleConnectMethod S tGet tPut host firstLine headerLines up c).1 =
         [Ev.lookup (fingerprint host (firstLine ++ joinLines headerLines)),
          Ev.writeClient cached, Ev.flushClient, Ev.shutdownClient] ∧
       (∀ k, Ev.throttleEv k ∉
         (handleConnectMethod S tGet tPut host firstLine headerLines up c).1) ∧
       (∀ a, Ev.dial a ∉
         (handleConnectMethod S tGet tPut host firstLine headerLines up c).1)) ∧
    (∀ (σ : Type) (S : CacheStorage σ) (tGet tPut : Nat) (method : String)
       (u : UrlParts) (version firstLine : String) (headerLines : List String)
       (up : List Nat) (c : Cache σ) (cached : List Nat),
       (Cache.get S tGet
          (fingerprint (targetAddr u) (firstLine ++ joinLines headerLines))
          c).1 = some cached →
       (handleElseMethods S tGet tPut method u version firstLine headerLines
          up c).1 =
         [Ev.lookup
            (fingerprint (targetAddr u) (firstLine ++ joinLines headerLines)),
          Ev.writeClient cached, Ev.flushClient, Ev.shutdownClient] ∧
       (∀ k, Ev.throttleEv k ∉
         (handleElseMethods S tGet tPut method u version firstLine headerLines
            up c).1) ∧
       (∀ a, Ev.dial a ∉
         (handleElseMethods S tGet tPut method u version firstLine headerLines
            up c).1)) ∧
    (∀ (σ : Type) (S : CacheStorage σ) (tGet tPut : Nat)
       (host firstLine : String) (headerLines : List String) (up : List Nat)
       (c : Cache σ),
       (handleConnectMethod S tGet tPut host firstLine headerLines up c).1.head?
         = some (Ev.lookup
             (fingerprint host (firstLine ++ joinLines headerLines))) ∧
       (∀ k, Ev.throttleEv k ∈
          (handleConnectMethod S tGet tPut host firstLine headerLines up c).1 →
          (Cache.get S tGet
             (fingerprint host (firstLine ++ joinLines headerLines)) c).1 =
            none)) ∧
    (∀ (σ : Type) (S : CacheStorage σ) (tGet tPut : Nat) (method : String)
       (u : UrlParts) (version firstLine : String) (headerLines : List String)
       (up : List Nat) (c : Cache σ),
       (handleElseMethods S tGet tPut method u version firstLine headerLines
          up c).1.head? =
         some (Ev.lookup
             (fingerprint (targetAddr u) (firstLine ++ joinLines headerLines))) ∧
       (∀ k, Ev.throttleEv k ∈
          (handleElseMethods S tGet tPut method u version firstLine headerLines
             up c).1 →
          (Cache.get S tGet
             (fingerprint (targetAddr u) (firstLine ++ joinLines headerLines))
             c).1 = none)) := by
  refine ⟨?_, ?_, ?_, ?_⟩
  · intro σ S tGet tPut host firstLine headerLines up c cached h
    refine ⟨?_, ?_, ?_⟩ <;> simp [handleConnectMethod, h]
  · intro σ S tGet tPut method u version firstLine headerLines up c cached h
    refine ⟨?_, ?_, ?_⟩ <;> simp [handleElseMethods, h]
  · intro σ S tGet tPut host firstLine headerLines up c
    rcases hres : (Cache.get S tGet
      (fingerprint host (firstLine ++ joinLines headerLines)) c).1 with _ | cached
    · constructor
      · simp [handleConnectMethod, hres]
      · intro k _; rfl
    · constructor
      · simp [handleConnectMethod, hres]
      · intro k hk
        simp [handleConnectMethod, hres] at hk
  · intro σ S tGet tPut method u version firstLine headerLines up c
    rcases hres : (Cache.get S tGet
      (fingerprint (targetAddr u) (firstLine ++ joinLines headerLines)) c).1
      with _ | cached
    · constructor
      · simp [handleElseMethods, hres]
      · intro k _; rfl
    · constructor
      · simp [handleElseMethods, hres]
      · intro k hk
        simp [handleElseMethods, hres] at hk

/-- Helper: an in-memory cache holding an unexpired entry for a key answers
a get of that key with the stored bytes. -/
theorem cache_get_singleton_hit (kk : String) (v : List Nat) :
    (Cache.get InMemoryStorage 0 kk
      (⟨1, 60, [(kk, 10)], [(kk, v)]⟩ : Cache MemState)).1 = some v := by
  unfold Cache.get
  rw [lookup_cons_self]
  dsimp only
  rw [if_pos (by decide : (0 : Nat) < 10)]
  exact lookup_cons_self _ _ _

/-- C4 witness: a CONNECT request whose fingerprint is cached is answered
from the cache with the write-flush-shutdown trace. -/
theorem c4_cache_hit_bypasses_throttle_witness :
    (handleConnectMethod InMemoryStorage 0 0 "h:1" "f" [] []
       ⟨1, 60, [(fingerprint "h:1" ("f" ++ joinLines []), 10)],
        [(fingerprint "h:1" ("f" ++ joinLines []), [7])]⟩).1 =
      [Ev.lookup (fingerprint "h:1" ("f" ++ joinLines [])),
       Ev.writeClient [7], Ev.flushClient, Ev.shutdownClient] :=
  (c4_cache_hit_bypasses_throttle.1 MemState InMemoryStorage 0 0 "h:1"
    "f" [] [] _ [7]
    (cache_get_singleton_hit (fingerprint "h:1" ("f" ++ joinLines [])) [7])).1

/-- C6: on a non-CONNECT cache miss the bytes written to the upstream during
the forwarding phase are exactly the rewritten first line followed by the
received header lines in their original order with precisely the lines whose
lowercased text starts with proxy- omitted; and that source filter agrees
with the spec filter keyed on the header name before the first colon,
case-insensitively. -/
theorem c6_upstream_write_exactness :
    (∀ (σ : Type) (S : CacheStorage σ) (tGet tPut : Nat) (method : String)
       (u : UrlParts) (version firstLine : String) (headerLines : List String)
       (up : List Nat) (c : Cache σ),
       (Cache.get S tGet
          (fingerprint (targetAddr u) (firstLine ++ joinLines headerLines))
          c).1 = none →
       (handleElseMethods S tGet tPut method u version firstLine headerLines
          up c).1.filterMap upPayload =
         newRequestLine method u version ::
           headerLines.filter (fun l => !(startsProxy l))) ∧
    (∀ l : String, startsProxy l = specProxy l) := by
  constructor
  · intro σ S tGet tPut method u version firstLine headerLines up c h
    simp only [handleElseMethods, h]
    simp [upPayload, filterMap_upPayload_map, filterMap_upPayload_comp,
      List.filterMap_append]
  · exact startsProxy_eq_specProxy

/-- C6 witness: a GET for http://h/p?q with a Host header, a
Proxy-Connection header and the terminating empty line, missing an empty
cache, writes upstream exactly the rewritten request line, the Host line and
the empty line, dropping the Proxy-Connection line. -/
theorem c6_upstream_write_exactness_witness :
    (handleElseMethods InMemoryStorage 0 0 "GET" ⟨"h", 80, "/p", some "q"⟩
       "HTTP/1.1" "GET http://h/p?q HTTP/1.1\r\n"
       ["Host: h\r\n", "Proxy-Connection: keep-alive\r\n", "\r\n"] []
       ⟨1024, 60, [], []⟩).1.filterMap upPayload =
      newRequestLine "GET" ⟨"h", 80, "/p", some "q"⟩ "HTTP/1.1" ::
        ["Host: h\r\n", "\r\n"] := by
  have h := c6_upstream_write_exactness.1 MemState InMemoryStorage 0 0 "GET"
    ⟨"h", 80, "/p", some "q"⟩ "HTTP/1.1" "GET http://h/p?q HTTP/1.1\r\n"
    ["Host: h\r\n", "Proxy-Connection: keep-alive\r\n", "\r\n"] []
    ⟨1024, 60, [], []⟩ rfl
  rw [h]
  rfl

end RL
